import Mathlib

/-!
Shallow embedding of the clickhouse-backup core (archive engine, table
selectors, backup workflow steps and retention policy) together with proofs
about the embedded operations.

External collaborators (the ClickHouse client, the S3 client, the
filesystem walk and the tar writer) are modelled as explicit inputs: each
operation receives a record describing the answers the collaborators give,
and returns the trace of collaborator calls it performs plus its own
result, mirroring the Go control flow statement by statement.
-/

namespace ClickhouseBackup

/-! ### Go string primitives (strings / path/filepath), on `List Char` -/

/-- Go `strings.TrimPrefix(s, p)`: drop `p` when it is a leading part of `s`. -/
def dropPfxL (p s : List Char) : List Char :=
  if p.isPrefixOf s then s.drop p.length else s

/-- One scan step of Go `strings.Replace(s, old, new, -1)` (all occurrences,
left to right, non-overlapping), with fuel bounded by the length of `s`.
Go treats an empty `old` specially (insertion between runes); the code under
verification only replaces non-empty literals, where this model agrees. -/
def replaceAllL (old new : List Char) : Nat → List Char → List Char
  | _, [] => []
  | 0, s => s
  | fuel + 1, c :: cs =>
    if old ≠ [] ∧ old.isPrefixOf (c :: cs) then
      new ++ replaceAllL old new fuel (cs.drop (old.length - 1))
    else
      c :: replaceAllL old new fuel cs

/-- Go `strings.Replace(s, old, new, -1)`. -/
def goReplaceAll (s old new : String) : String :=
  ⟨replaceAllL old.data new.data s.data.length s.data⟩

/-- Go `strings.Replace(s, old, new, 1)`: replace the leftmost occurrence. -/
def replaceFirstL (old new : List Char) : List Char → List Char
  | [] => []
  | c :: cs =>
    if old ≠ [] ∧ old.isPrefixOf (c :: cs) then
      new ++ cs.drop (old.length - 1)
    else
      c :: replaceFirstL old new cs

/-- Go `strings.Replace(s, old, new, 1)`. -/
def goReplaceFirst (s old new : String) : String :=
  ⟨replaceFirstL old.data new.data s.data⟩

/-- Go `strings.Contains(s, sub)` at the `List Char` level. -/
def containsSubL (sub : List Char) : List Char → Bool
  | [] => sub.isEmpty
  | c :: cs => sub.isPrefixOf (c :: cs) || containsSubL sub cs

/-- Go `strings.Contains(s, sub)`. -/
def strContains (s sub : String) : Bool :=
  containsSubL sub.data s.data

/-- Go `strings.HasSuffix(s, sfx)`. -/
def strEndsWith (s sfx : String) : Bool :=
  sfx.data.reverse.isPrefixOf s.data.reverse

/-- Go `filepath.Base(path)` on unix: strip trailing separators, keep the
part after the last separator; empty input gives `"."`, all-separator input
gives `"/"`. -/
def goBaseL (p : List Char) : List Char :=
  if p = [] then ['.']
  else
    let stripped := (p.reverse.dropWhile (fun c => c = '/')).reverse
    let last := (stripped.reverse.takeWhile (fun c => c ≠ '/')).reverse
    if last = [] then ['/'] else last

/-- Go `filepath.Base(path)`. -/
def goBase (p : String) : String := ⟨goBaseL p.data⟩

example : goBase "/var/lib/clickhouse/shadow" = "shadow" := by decide
example : goBase "" = "." := by decide
example : goBase "///" = "/" := by decide
example : goReplaceAll "/data/shadow/a" "/data/shadow" "shadow" = "shadow/a" := by decide
example : goReplaceFirst "ATTACH TABLE ATTACH" "ATTACH" "CREATE" = "CREATE TABLE ATTACH" := by
  decide
example : strContains "x ENGINE = Distributed(y)" "ENGINE = Distributed" = true := by decide
example : strEndsWith "table.sql" "sql" = true := by decide

/-! ### archive.go: the hardlink-aware tar archiver -/

/-- Type `devino` from archive.go: device id plus inode number, the
filesystem identity used to detect hardlinks. -/
structure Devino where
  Dev : Nat
  Ino : Nat
deriving DecidableEq, Repr

/-- One filesystem object visited by `filepath.Walk`, together with the
answers the filesystem gives for it: the walk callback error, the
`tar.FileInfoHeader` error, the `tw.WriteHeader` error, the `os.Open` error,
and the outcome of `io.Copy` (the bytes actually transferred plus the error
`io.Copy` would report, which archive.go discards). -/
structure WalkFile where
  path : String
  isDir : Bool
  dev : Nat
  ino : Nat
  mode : Nat
  size : Nat
  modTime : Int
  walkErr : Option String
  headerErr : Option String
  whErr : Option String
  openErr : Option String
  readBytes : List Nat
  readErr : Option String
deriving DecidableEq, Repr

/-- A tar entry as written by `tarDir`: either a content entry (header plus
body bytes) or a hard-link entry (`tar.TypeLink`, size zero, pointing at the
canonical path). -/
inductive TarEntry where
  | content (name : String) (mode size : Nat) (modTime : Int) (body : List Nat)
  | link (name : String) (linkname : String)
deriving DecidableEq, Repr

/-- Result of a Go function: normal value, returned error, or runtime panic. -/
inductive GoResult (α : Type) where
  | ok (a : α)
  | error (msg : String)
  | panic (msg : String)
deriving DecidableEq, Repr

/-- archive.go line 73: the archive-relative name,
`strings.TrimPrefix(strings.Replace(file, dir, filepath.Base(dir), -1), "/")`. -/
def tarFileName (dir file : String) : String :=
  ⟨dropPfxL "/".data (goReplaceAll file dir (goBase dir)).data⟩

/-- The `seen` map of `tarDir` (`map[devino]string`), as an association list
inserted at the head; `tarDir` inserts a key only when it is absent, so head
insertion has exactly the Go map semantics. -/
def lookupSeen : List (Devino × String) → Devino → Option String
  | [], _ => none
  | (k, v) :: rest, d => if k = d then some v else lookupSeen rest d

/-- archive.go lines 76-80: the `devino` built from `fi.Sys().(*syscall.Stat_t)`. -/
def fileDevino (f : WalkFile) : Devino := ⟨f.dev, f.ino⟩

/-- The body of the `filepath.Walk` callback of `tarDir`, folded over the
walk order.  Returns the entries written to the tar stream and the error the
walk aborts with, if any.  Note that the error of `io.Copy` (`readErr`) is
discarded, exactly as in the source. -/
def tarWalk (dir : String) (seen : List (Devino × String)) :
    List WalkFile → List TarEntry × Option String
  | [] => ([], none)
  | f :: fs =>
    match f.walkErr with
    | some e => ([], some e)
    | none =>
      if f.isDir then tarWalk dir seen fs
      else
        match f.headerErr with
        | some e => ([], some e)
        | none =>
          let filename := tarFileName dir f.path
          match lookupSeen seen (fileDevino f) with
          | some orig =>
            match f.whErr with
            | some e => ([], some e)
            | none =>
              let r := tarWalk dir seen fs
              (TarEntry.link filename orig :: r.1, r.2)
          | none =>
            match f.whErr with
            | some e => ([], some e)
            | none =>
              match f.openErr with
              | some e => ([], some e)
              | none =>
                let r := tarWalk dir ((fileDevino f, filename) :: seen) fs
                (TarEntry.content filename f.mode f.size f.modTime f.readBytes :: r.1, r.2)

/-- The `os.Stat` answer for the root directory passed to `tarDir`. -/
structure DirStat where
  statErr : Option String
  isDir : Bool
deriving DecidableEq, Repr

/-- archive.go `tarDir`: stat the root, reject stat errors, and note that in
the not-a-directory branch the source evaluates `err.Error()` on the nil
error returned by the successful `os.Stat`, which is a nil-interface method
call and panics at runtime; then walk the tree with an empty `seen` map. -/
def tarDir (dir : String) (st : DirStat) (walk : List WalkFile) :
    GoResult (List TarEntry) :=
  match st.statErr with
  | some e => GoResult.error ("unable to tar files - " ++ e)
  | none =>
    if !st.isDir then
      GoResult.panic "runtime error: invalid memory address or nil pointer dereference"
    else
      match tarWalk dir [] walk with
      | (entries, none) => GoResult.ok entries
      | (_, some e) => GoResult.error e

/-- archive.go `TarDirs`: archive several roots into one stream; the `seen`
map is created afresh inside `tarDir` for every root. -/
def TarDirs : List (String × DirStat × List WalkFile) → GoResult (List TarEntry)
  | [] => GoResult.ok []
  | (dir, st, walk) :: rest =>
    match tarDir dir st walk with
    | GoResult.ok es =>
      match TarDirs rest with
      | GoResult.ok es2 => GoResult.ok (es ++ es2)
      | GoResult.error e => GoResult.error e
      | GoResult.panic m => GoResult.panic m
    | GoResult.error e => GoResult.error e
    | GoResult.panic m => GoResult.panic m

/-- The walk `tarWalk` with every emitted entry tagged by the `devino` of the file it
was produced for.  The tag is a proof device: erasing it gives back
`tarWalk` (`tarWalkTagged_untag`), and it lets entries be attributed to an
identity group. -/
def tarWalkTagged (dir : String) (seen : List (Devino × String)) :
    List WalkFile → List (Devino × TarEntry) × Option String
  | [] => ([], none)
  | f :: fs =>
    match f.walkErr with
    | some e => ([], some e)
    | none =>
      if f.isDir then tarWalkTagged dir seen fs
      else
        match f.headerErr with
        | some e => ([], some e)
        | none =>
          let filename := tarFileName dir f.path
          match lookupSeen seen (fileDevino f) with
          | some orig =>
            match f.whErr with
            | some e => ([], some e)
            | none =>
              let r := tarWalkTagged dir seen fs
              ((fileDevino f, TarEntry.link filename orig) :: r.1, r.2)
          | none =>
            match f.whErr with
            | some e => ([], some e)
            | none =>
              match f.openErr with
              | some e => ([], some e)
              | none =>
                let r := tarWalkTagged dir ((fileDevino f, filename) :: seen) fs
                ((fileDevino f,
                  TarEntry.content filename f.mode f.size f.modTime f.readBytes) :: r.1, r.2)

/-- A walk on which no filesystem or tar-writer call fails (the `io.Copy`
error is deliberately absent here: archive.go never looks at it). -/
def cleanWalk (fs : List WalkFile) : Prop :=
  ∀ f ∈ fs, f.walkErr = none ∧ f.headerErr = none ∧ f.whErr = none ∧ f.openErr = none

instance cleanWalkDecidable (fs : List WalkFile) : Decidable (cleanWalk fs) := by
  unfold cleanWalk; infer_instance

/-- The regular files of a walk that carry the filesystem identity `d`,
in walk order. -/
def groupFiles (d : Devino) (fs : List WalkFile) : List WalkFile :=
  fs.filter (fun f => !f.isDir && (fileDevino f == d))

/-- The entries a tagged walk produced for identity `d`, in order. -/
def taggedGroup (d : Devino) (l : List (Devino × TarEntry)) : List TarEntry :=
  (l.filter (fun p => p.1 == d)).map Prod.snd

def isContentEntry : TarEntry → Bool
  | TarEntry.content _ _ _ _ _ => true
  | TarEntry.link _ _ => false

def isLinkEntry : TarEntry → Bool
  | TarEntry.content _ _ _ _ _ => false
  | TarEntry.link _ _ => true

def linknameOf : TarEntry → Option String
  | TarEntry.content _ _ _ _ _ => none
  | TarEntry.link _ l => some l

theorem tarWalkTagged_untag (dir : String) :
    ∀ (fs : List WalkFile) (seen : List (Devino × String)),
      (tarWalkTagged dir seen fs).1.map Prod.snd = (tarWalk dir seen fs).1 ∧
      (tarWalkTagged dir seen fs).2 = (tarWalk dir seen fs).2 := by
  intro fs
  induction fs with
  | nil => intro seen; exact ⟨rfl, rfl⟩
  | cons f fs ih =>
    intro seen
    cases hw : f.walkErr with
    | some e => simp [tarWalk, tarWalkTagged, hw]
    | none =>
      by_cases hd : f.isDir
      · simpa [tarWalk, tarWalkTagged, hw, hd] using ih seen
      · cases hh : f.headerErr with
        | some e => simp [tarWalk, tarWalkTagged, hw, hd, hh]
        | none =>
          cases hs : lookupSeen seen (fileDevino f) with
          | some orig =>
            cases hwh : f.whErr with
            | some e => simp [tarWalk, tarWalkTagged, hw, hd, hh, hs, hwh]
            | none =>
              simpa [tarWalk, tarWalkTagged, hw, hd, hh, hs, hwh] using ih seen
          | none =>
            cases hwh : f.whErr with
            | some e => simp [tarWalk, tarWalkTagged, hw, hd, hh, hs, hwh]
            | none =>
              cases ho : f.openErr with
              | some e => simp [tarWalk, tarWalkTagged, hw, hd, hh, hs, hwh, ho]
              | none =>
                simpa [tarWalk, tarWalkTagged, hw, hd, hh, hs, hwh, ho] using
                  ih ((fileDevino f, tarFileName dir f.path) :: seen)

theorem tarWalk_clean_no_error (dir : String) :
    ∀ (fs : List WalkFile) (seen : List (Devino × String)),
      cleanWalk fs → (tarWalk dir seen fs).2 = none := by
  intro fs
  induction fs with
  | nil => intro seen _; rfl
  | cons f fs ih =>
    intro seen hclean
    obtain ⟨⟨hw, hh, hwh, ho⟩, htail⟩ :
        (f.walkErr = none ∧ f.headerErr = none ∧ f.whErr = none ∧ f.openErr = none) ∧
          cleanWalk fs := by
      refine ⟨hclean f (List.mem_cons_self f fs), fun g hg => hclean g (List.mem_cons_of_mem f hg)⟩
    by_cases hd : f.isDir
    · simpa [tarWalk, hw, hd] using ih seen htail
    · cases hs : lookupSeen seen (fileDevino f) with
      | some orig => simpa [tarWalk, hw, hd, hh, hs, hwh] using ih seen htail
      | none =>
        simpa [tarWalk, hw, hd, hh, hs, hwh, ho] using
          ih ((fileDevino f, tarFileName dir f.path) :: seen) htail

theorem taggedGroup_cons (d : Devino) (p : Devino × TarEntry) (l : List (Devino × TarEntry)) :
    taggedGroup d (p :: l) = if p.1 = d then p.2 :: taggedGroup d l else taggedGroup d l := by
  by_cases h : p.1 = d <;> simp [taggedGroup, h]

theorem groupFiles_cons (d : Devino) (f : WalkFile) (fs : List WalkFile) :
    groupFiles d (f :: fs) =
      if f.isDir = false ∧ fileDevino f = d then f :: groupFiles d fs
      else groupFiles d fs := by
  by_cases h1 : f.isDir <;> by_cases h2 : fileDevino f = d <;> simp [groupFiles, h1, h2]

/-- Once an identity is registered in `seen` with canonical path `orig`,
every later regular file with that identity yields a link entry to `orig`. -/
theorem taggedGroup_of_seen (dir : String) (d : Devino) :
    ∀ (fs : List WalkFile) (seen : List (Devino × String)) (orig : String),
      cleanWalk fs → lookupSeen seen d = some orig →
      taggedGroup d (tarWalkTagged dir seen fs).1 =
        (groupFiles d fs).map (fun g => TarEntry.link (tarFileName dir g.path) orig) := by
  intro fs
  induction fs with
  | nil => intro seen orig _ _; rfl
  | cons f fs ih =>
    intro seen orig hclean hseen
    obtain ⟨hw, hh, hwh, ho⟩ := hclean f (List.mem_cons_self f fs)
    have htail : cleanWalk fs := fun g hg => hclean g (List.mem_cons_of_mem f hg)
    by_cases hd : f.isDir
    · have e1 : tarWalkTagged dir seen (f :: fs) = tarWalkTagged dir seen fs := by
        simp [tarWalkTagged, hw, hd]
      rw [e1, groupFiles_cons, if_neg (by simp [hd]), ih seen orig htail hseen]
    · cases hs : lookupSeen seen (fileDevino f) with
      | some o2 =>
        have e1 : (tarWalkTagged dir seen (f :: fs)).1 =
            (fileDevino f, TarEntry.link (tarFileName dir f.path) o2) ::
              (tarWalkTagged dir seen fs).1 := by
          simp [tarWalkTagged, hw, hd, hh, hs, hwh]
        by_cases hdd : fileDevino f = d
        · have horig : o2 = orig := by
            rw [hdd] at hs
            exact Option.some.inj (hs.symm.trans hseen)
          rw [e1, taggedGroup_cons, if_pos hdd, groupFiles_cons,
            if_pos ⟨by simp [hd], hdd⟩, List.map_cons, ih seen orig htail hseen, horig]
        · rw [e1, taggedGroup_cons, if_neg hdd, groupFiles_cons, if_neg (by simp [hdd]),
            ih seen orig htail hseen]
      | none =>
        have hdd : fileDevino f ≠ d := by
          intro h
          rw [h] at hs
          exact Option.noConfusion (hseen.symm.trans hs)
        have e1 : (tarWalkTagged dir seen (f :: fs)).1 =
            (fileDevino f,
              TarEntry.content (tarFileName dir f.path) f.mode f.size f.modTime f.readBytes) ::
              (tarWalkTagged dir ((fileDevino f, tarFileName dir f.path) :: seen) fs).1 := by
          simp [tarWalkTagged, hw, hd, hh, hs, hwh, ho]
        have hseen2 :
            lookupSeen ((fileDevino f, tarFileName dir f.path) :: seen) d = some orig := by
          simp [lookupSeen, hdd, hseen]
        rw [e1, taggedGroup_cons, if_neg hdd, groupFiles_cons, if_neg (by simp [hdd]),
          ih _ orig htail hseen2]

/-- When identity `d` is not yet registered, the walk records the first
regular file carrying `d` as a content entry and every later one as a link
back to that first file's archive name. -/
theorem taggedGroup_of_unseen (dir : String) (d : Devino) :
    ∀ (fs : List WalkFile) (seen : List (Devino × String)) (f0 : WalkFile)
      (rest : List WalkFile),
      cleanWalk fs → lookupSeen seen d = none →
      groupFiles d fs = f0 :: rest →
      taggedGroup d (tarWalkTagged dir seen fs).1 =
        TarEntry.content (tarFileName dir f0.path) f0.mode f0.size f0.modTime f0.readBytes ::
          rest.map (fun g => TarEntry.link (tarFileName dir g.path) (tarFileName dir f0.path)) := by
  intro fs
  induction fs with
  | nil =>
    intro seen f0 rest _ _ hgroup
    exact absurd hgroup (by simp [groupFiles])
  | cons f fs ih =>
    intro seen f0 rest hclean hseen hgroup
    obtain ⟨hw, hh, hwh, ho⟩ := hclean f (List.mem_cons_self f fs)
    have htail : cleanWalk fs := fun g hg => hclean g (List.mem_cons_of_mem f hg)
    by_cases hd : f.isDir
    · have e1 : tarWalkTagged dir seen (f :: fs) = tarWalkTagged dir seen fs := by
        simp [tarWalkTagged, hw, hd]
      rw [groupFiles_cons, if_neg (by simp [hd])] at hgroup
      rw [e1, ih seen f0 rest htail hseen hgroup]
    · by_cases hdd : fileDevino f = d
      · have hs : lookupSeen seen (fileDevino f) = none := by rw [hdd]; exact hseen
        have e1 : (tarWalkTagged dir seen (f :: fs)).1 =
            (fileDevino f,
              TarEntry.content (tarFileName dir f.path) f.mode f.size f.modTime f.readBytes) ::
              (tarWalkTagged dir ((fileDevino f, tarFileName dir f.path) :: seen) fs).1 := by
          simp [tarWalkTagged, hw, hd, hh, hs, hwh, ho]
        rw [groupFiles_cons, if_pos ⟨by simp [hd], hdd⟩] at hgroup
        have hf0 : f = f0 := (List.cons.injEq _ _ _ _ ▸ hgroup).1
        have hrest : groupFiles d fs = rest := (List.cons.injEq _ _ _ _ ▸ hgroup).2
        have hseen2 :
            lookupSeen ((fileDevino f, tarFileName dir f.path) :: seen) d =
              some (tarFileName dir f.path) := by
          simp [lookupSeen, hdd]
        rw [e1, taggedGroup_cons, if_pos hdd,
          taggedGroup_of_seen dir d fs _ _ htail hseen2, hrest, hf0]
      · cases hs : lookupSeen seen (fileDevino f) with
        | some o2 =>
          have e1 : (tarWalkTagged dir seen (f :: fs)).1 =
              (fileDevino f, TarEntry.link (tarFileName dir f.path) o2) ::
                (tarWalkTagged dir seen fs).1 := by
            simp [tarWalkTagged, hw, hd, hh, hs, hwh]
          rw [groupFiles_cons, if_neg (by simp [hdd])] at hgroup
          rw [e1, taggedGroup_cons, if_neg hdd, ih seen f0 rest htail hseen hgroup]
        | none =>
          have e1 : (tarWalkTagged dir seen (f :: fs)).1 =
              (fileDevino f,
                TarEntry.content (tarFileName dir f.path) f.mode f.size f.modTime f.readBytes) ::
                (tarWalkTagged dir ((fileDevino f, tarFileName dir f.path) :: seen) fs).1 := by
            simp [tarWalkTagged, hw, hd, hh, hs, hwh, ho]
          have hseen2 :
              lookupSeen ((fileDevino f, tarFileName dir f.path) :: seen) d = none := by
            simp [lookupSeen, hdd, hseen]
          rw [groupFiles_cons, if_neg (by simp [hdd])] at hgroup
          rw [e1, taggedGroup_cons, if_neg hdd, ih _ f0 rest htail hseen2 hgroup]

theorem countP_content_of_link_map (dir nm : String) (rest : List WalkFile) :
    ((rest.map fun g => TarEntry.link (tarFileName dir g.path) nm).countP isContentEntry)
      = 0 := by
  induction rest with
  | nil => rfl
  | cons g gs ih => simp [List.countP_cons, isContentEntry, ih]

theorem countP_link_of_link_map (dir nm : String) (rest : List WalkFile) :
    ((rest.map fun g => TarEntry.link (tarFileName dir g.path) nm).countP isLinkEntry)
      = rest.length := by
  induction rest with
  | nil => rfl
  | cons g gs ih => simp [List.countP_cons, isLinkEntry, ih]

/-- Claim C1: on an error-free archive pass over one directory tree, the
regular files sharing a filesystem identity `d` produce exactly one content
entry — for the first such file in walk order — followed by `k - 1` link
entries, each of whose link-name is the archive name of that first file. -/
theorem tarDir_hardlink_canonical (dir : String) (fs : List WalkFile) (d : Devino)
    (f0 : WalkFile) (rest : List WalkFile)
    (hclean : cleanWalk fs)
    (hgroup : groupFiles d fs = f0 :: rest) :
    tarDir dir ⟨none, true⟩ fs = GoResult.ok ((tarWalkTagged dir [] fs).1.map Prod.snd) ∧
    taggedGroup d (tarWalkTagged dir [] fs).1 =
      TarEntry.content (tarFileName dir f0.path) f0.mode f0.size f0.modTime f0.readBytes ::
        rest.map (fun g => TarEntry.link (tarFileName dir g.path) (tarFileName dir f0.path)) ∧
    (taggedGroup d (tarWalkTagged dir [] fs).1).countP isContentEntry = 1 ∧
    (taggedGroup d (tarWalkTagged dir [] fs).1).countP isLinkEntry =
      (groupFiles d fs).length - 1 ∧
    ∀ e ∈ taggedGroup d (tarWalkTagged dir [] fs).1,
      isLinkEntry e = true → linknameOf e = some (tarFileName dir f0.path) := by
  have herr := tarWalk_clean_no_error dir fs [] hclean
  have huntag := (tarWalkTagged_untag dir fs []).1
  have hB := taggedGroup_of_unseen dir d fs [] f0 rest hclean rfl hgroup
  refine ⟨?_, hB, ?_, ?_, ?_⟩
  · rw [huntag]
    cases htw : tarWalk dir [] fs with
    | mk es err =>
      have hnone : err = none := by rw [htw] at herr; exact herr
      subst hnone
      simp [tarDir, htw]
  · rw [hB]
    simp [List.countP_cons, isContentEntry, countP_content_of_link_map]
  · rw [hB, hgroup]
    simp [List.countP_cons, isLinkEntry, countP_link_of_link_map]
  · rw [hB]
    intro e he hlink
    rcases List.mem_cons.mp he with rfl | hmem
    · exact absurd hlink (by simp [isLinkEntry])
    · obtain ⟨g, _, rfl⟩ := List.mem_map.mp hmem
      rfl

def demoDir : String := "/data/shadow"

def demoDirEnt : WalkFile :=
  { path := "/data/shadow/d1", isDir := true, dev := 8, ino := 100, mode := 493, size := 0,
    modTime := 0, walkErr := none, headerErr := none, whErr := none, openErr := none,
    readBytes := [], readErr := none }

def demoA : WalkFile :=
  { path := "/data/shadow/d1/a", isDir := false, dev := 8, ino := 5, mode := 420, size := 2,
    modTime := 11, walkErr := none, headerErr := none, whErr := none, openErr := none,
    readBytes := [10, 20], readErr := none }

def demoB : WalkFile :=
  { path := "/data/shadow/d1/b", isDir := false, dev := 8, ino := 5, mode := 420, size := 2,
    modTime := 12, walkErr := none, headerErr := none, whErr := none, openErr := none,
    readBytes := [10, 20], readErr := none }

def demoOther : WalkFile :=
  { path := "/data/shadow/other", isDir := false, dev := 8, ino := 6, mode := 420, size := 1,
    modTime := 13, walkErr := none, headerErr := none, whErr := none, openErr := none,
    readBytes := [7], readErr := none }

def demoC : WalkFile :=
  { path := "/data/shadow/d1/c", isDir := false, dev := 8, ino := 5, mode := 420, size := 2,
    modTime := 14, walkErr := none, headerErr := none, whErr := none, openErr := none,
    readBytes := [10, 20], readErr := none }

def demoWalk : List WalkFile := [demoDirEnt, demoA, demoB, demoOther, demoC]

def demoDevino : Devino := ⟨8, 5⟩

theorem tarDir_hardlink_canonical_witness :
    cleanWalk demoWalk ∧
    groupFiles demoDevino demoWalk = demoA :: [demoB, demoC] ∧
    (tarDir demoDir ⟨none, true⟩ demoWalk =
        GoResult.ok ((tarWalkTagged demoDir [] demoWalk).1.map Prod.snd) ∧
      taggedGroup demoDevino (tarWalkTagged demoDir [] demoWalk).1 =
        TarEntry.content (tarFileName demoDir demoA.path) demoA.mode demoA.size demoA.modTime
            demoA.readBytes ::
          [demoB, demoC].map
            (fun g => TarEntry.link (tarFileName demoDir g.path) (tarFileName demoDir demoA.path)) ∧
      (taggedGroup demoDevino (tarWalkTagged demoDir [] demoWalk).1).countP isContentEntry = 1 ∧
      (taggedGroup demoDevino (tarWalkTagged demoDir [] demoWalk).1).countP isLinkEntry =
        (groupFiles demoDevino demoWalk).length - 1 ∧
      ∀ e ∈ taggedGroup demoDevino (tarWalkTagged demoDir [] demoWalk).1,
        isLinkEntry e = true → linknameOf e = some (tarFileName demoDir demoA.path)) :=
  ⟨by decide, by decide,
    tarDir_hardlink_canonical demoDir demoWalk demoDevino demoA [demoB, demoC]
      (by decide) (by decide)⟩

/-- The failing input for claim C2: a 10-byte file whose content read stops
after 3 bytes with an error that `io.Copy` reports and archive.go discards
(line 105 ignores both results of `io.Copy`). -/
def copyFailFile : WalkFile :=
  { path := "/data/shadow/part", isDir := false, dev := 2049, ino := 7, mode := 420,
    size := 10, modTime := 1700000000, walkErr := none, headerErr := none, whErr := none,
    openErr := none, readBytes := [104, 105, 33], readErr := some "unexpected EOF" }

/-- Claim C2 (code bug): an error while reading a file's content bytes does
not abort the archive pass — archive.go discards the result of `io.Copy`,
so `tarDir` completes successfully and the archive carries a content entry
whose declared size is 10 but whose body has only the 3 bytes that were
actually read. -/
theorem tarDir_ignores_copy_error :
    copyFailFile.readErr = some "unexpected EOF" ∧
    copyFailFile.size = 10 ∧
    tarDir "/data/shadow" ⟨none, true⟩ [copyFailFile] =
      GoResult.ok
        [TarEntry.content (tarFileName "/data/shadow" copyFailFile.path) 420 10 1700000000
          [104, 105, 33]] :=
  ⟨rfl, rfl, rfl⟩

/-- Claim C3 (code bug): when the root path exists but is not a directory,
archive.go line 53 builds its message with `err.Error()` where `err` is the
nil error of the successful `os.Stat`; the nil-interface method call panics
instead of returning the intended descriptive error. -/
theorem tarDir_panics_when_root_not_dir :
    tarDir "/var/lib/clickhouse/data.bin" ⟨none, false⟩ [] =
      GoResult.panic "runtime error: invalid memory address or nil pointer dereference" := rfl

/-! ### Go `path/filepath.Match` (unix), used by the table selectors

The selectors call `filepath.Match(pattern, name)` and discard its error.
The matcher is embedded on `List Char` (one `Char` per rune; the inputs the
program matches are database/table names).  Loops whose Go counterparts
shrink a string by at least one byte per iteration are written with a fuel
argument initialized to more than that string's length, so the embedding
stays structurally recursive and computable by `decide`. -/

/-- Outcome of Go `matchChunk`: a match with the rest of the name, a plain
mismatch (`ok=false, err=nil`), or `ErrBadPattern`. -/
inductive ChunkRes where
  | ok (t : List Char)
  | fail
  | bad
deriving DecidableEq, Repr

/-- Go `getEsc`: read one (possibly `\`-escaped) range endpoint; rejects a
leading `-` or `]`, an exhausted chunk, and an endpoint in final position. -/
def getEsc : List Char → ChunkRes × Char × List Char
  | [] => (ChunkRes.bad, ' ', [])
  | c :: cs =>
    if c = '-' ∨ c = ']' then (ChunkRes.bad, ' ', [])
    else if c = '\\' then
      match cs with
      | [] => (ChunkRes.bad, ' ', [])
      | r :: rs => if rs.isEmpty then (ChunkRes.bad, ' ', rs) else (ChunkRes.ok rs, r, rs)
    else
      if cs.isEmpty then (ChunkRes.bad, ' ', cs) else (ChunkRes.ok cs, c, cs)

/-- The range-parsing loop inside the `[` case of Go `matchChunk`; `r` is
the rune taken from the name, `m` the accumulated match flag, `nrange` the
number of ranges parsed so far.  Returns the flag and the chunk after `]`. -/
def matchRanges (r : Char) : Nat → List Char → Bool → Nat → ChunkRes × Bool × List Char
  | 0, _, _, _ => (ChunkRes.bad, false, [])
  | fuel + 1, chunk, m, nrange =>
    if chunk.head? = some ']' ∧ nrange > 0 then (ChunkRes.ok [], m, chunk.tail)
    else
      match getEsc chunk with
      | (ChunkRes.ok _, lo, chunk1) =>
        match chunk1 with
        | [] => (ChunkRes.bad, false, [])
        | c1 :: cs1 =>
          if c1 = '-' then
            match getEsc cs1 with
            | (ChunkRes.ok _, hi, chunk2) =>
              matchRanges r fuel chunk2 (m || (lo ≤ r && r ≤ hi)) (nrange + 1)
            | _ => (ChunkRes.bad, false, [])
          else
            matchRanges r fuel (c1 :: cs1) (m || (lo ≤ r && r ≤ lo)) (nrange + 1)
      | _ => (ChunkRes.bad, false, [])

/-- Go `matchChunk` (non-windows): match a chunk against the head of the
name, handling `[` character classes, `?`, `\` escapes and literals. -/
def matchChunk : Nat → List Char → List Char → ChunkRes
  | 0, _, _ => ChunkRes.bad
  | fuel + 1, chunk, s =>
    match chunk with
    | [] => ChunkRes.ok s
    | c :: cs =>
      match s with
      | [] => ChunkRes.fail
      | sc :: ss =>
        if c = '[' then
          match cs with
          | [] => ChunkRes.bad
          | _ :: _ =>
            let negated := cs.head? = some '^'
            let cs1 := if negated then cs.tail else cs
            match matchRanges sc (cs1.length + 1) cs1 false 0 with
            | (ChunkRes.ok _, m, rest) =>
              if m = negated then ChunkRes.fail else matchChunk fuel rest ss
            | _ => ChunkRes.bad
        else if c = '?' then
          if sc = '/' then ChunkRes.fail else matchChunk fuel cs ss
        else if c = '\\' then
          match cs with
          | [] => ChunkRes.bad
          | e :: es => if e = sc then matchChunk fuel es ss else ChunkRes.fail
        else
          if c = sc then matchChunk fuel cs ss else ChunkRes.fail

/-- The leading-`*` stripping of Go `scanChunk`. -/
def dropStars : List Char → Bool × List Char
  | [] => (false, [])
  | c :: cs => if c = '*' then (true, (dropStars cs).2) else (false, c :: cs)

/-- The scan loop of Go `scanChunk`: collect the chunk up to the next `*`
that is outside a `[...]` range, honouring `\` escapes. -/
def scanBody (inrange : Bool) : List Char → List Char × List Char
  | [] => ([], [])
  | c :: cs =>
    if c = '\\' then
      match cs with
      | [] => ([c], [])
      | d :: ds =>
        let r := scanBody inrange ds
        (c :: d :: r.1, r.2)
    else if c = '*' ∧ inrange = false then ([], c :: cs)
    else
      let inr := if c = '[' then true else if c = ']' then false else inrange
      let r := scanBody inr cs
      (c :: r.1, r.2)

/-- Go `scanChunk`: split the pattern into (saw a star, chunk, rest). -/
def scanChunk (pattern : List Char) : Bool × List Char × List Char :=
  let s := dropStars pattern
  let b := scanBody false s.2
  (s.1, b.1, b.2)

/-- The `i`-indexed retry loop of Go `Match` when the current chunk follows
a `*`: try the chunk at every later byte position of the name, not crossing
a separator.  Returns the remaining name to continue with, `none` when the
loop ran out, or a bad-pattern error. -/
def starLoop (chunk restPat : List Char) : List Char → ChunkRes × Option (List Char)
  | [] => (ChunkRes.ok [], none)
  | c :: cs =>
    if c = '/' then (ChunkRes.ok [], none)
    else
      match matchChunk (chunk.length + 1) chunk cs with
      | ChunkRes.ok t =>
        if restPat.isEmpty ∧ t.isEmpty = false then starLoop chunk restPat cs
        else (ChunkRes.ok [], some t)
      | ChunkRes.fail => starLoop chunk restPat cs
      | ChunkRes.bad => (ChunkRes.bad, none)

/-- Go `path/filepath.Match` main loop (`Pattern:` label); the fuel is
strictly more than the pattern length, which the per-iteration pattern
consumption of `scanChunk` makes sufficient. -/
def matchPat : Nat → List Char → List Char → ChunkRes × Bool
  | 0, _, _ => (ChunkRes.bad, false)
  | fuel + 1, pattern, name =>
    match pattern with
    | [] => (ChunkRes.ok [], name.isEmpty)
    | _ :: _ =>
      let sc := scanChunk pattern
      let star := sc.1
      let chunk := sc.2.1
      let rest := sc.2.2
      if star = true ∧ chunk.isEmpty then (ChunkRes.ok [], name.contains '/' = false)
      else
        match matchChunk (chunk.length + 1) chunk name with
        | ChunkRes.ok t =>
          if t.isEmpty ∨ rest.isEmpty = false then matchPat fuel rest t
          else if star then
            match starLoop chunk rest name with
            | (ChunkRes.bad, _) => (ChunkRes.bad, false)
            | (_, some t2) => matchPat fuel rest t2
            | (_, none) => (ChunkRes.ok [], false)
          else (ChunkRes.ok [], false)
        | ChunkRes.fail =>
          if star then
            match starLoop chunk rest name with
            | (ChunkRes.bad, _) => (ChunkRes.bad, false)
            | (_, some t2) => matchPat fuel rest t2
            | (_, none) => (ChunkRes.ok [], false)
          else (ChunkRes.ok [], false)
        | ChunkRes.bad => (ChunkRes.bad, false)

/-- The call `matched, _ := filepath.Match(pattern, name)` as the selectors use it:
the boolean result with the error discarded (Go returns `matched = false`
whenever it returns an error). -/
def matchedOnly (pattern name : String) : Bool :=
  (matchPat (pattern.data.length + 1) pattern.data name.data).2

example : matchedOnly "*" "db.table" = true := by decide
example : matchedOnly "salesdb.*" "salesdb.events" = true := by decide
example : matchedOnly "salesdb.*" "otherdb.events" = false := by decide
example : matchedOnly "db.t?" "db.t1" = true := by decide
example : matchedOnly "db.[ab]x" "db.ax" = true := by decide
example : matchedOnly "db.[^ab]x" "db.cx" = true := by decide
example : matchedOnly "db.[a-c]x" "db.bx" = true := by decide
example : matchedOnly "[" "db.table" = false := by decide
example : matchedOnly "a.t1" "a.t1" = true := by decide
example : matchedOnly "b.t2" "a.t1" = false := by decide

/-! ### The table selectors (parseArgsForFreeze / parseArgsForRestore / parseArgsForDownload) -/

/-- A live table as returned by `ch.GetTables()`. -/
structure Table where
  Database : String
  Name : String
deriving DecidableEq, Repr

/-- One freeze snapshot instance as returned by `ch.GetBackupTables()`. -/
structure BackupTable where
  Database : String
  Name : String
  Increment : Int
deriving DecidableEq, Repr

/-- A rewritten creation statement ready for replay. -/
structure RestoreTable where
  Database : String
  Query : String
deriving DecidableEq, Repr

/-- Go `fmt.Sprintf("%s.%s", database, name)`. -/
def tableFullName (db nm : String) : String := db ++ "." ++ nm

/-- main.go `parseArgsForFreeze`: outer loop over the patterns, inner loop
over the catalog, appending every table whose `db.table` name matches; the
`filepath.Match` error is discarded.  Always returns a nil error. -/
def parseArgsForFreeze (tables : List Table) (args : List String) :
    List Table × Option String :=
  if args.length = 0 then (tables, none)
  else
    (args.foldl
      (fun result arg =>
        tables.foldl
          (fun result t =>
            if matchedOnly arg (tableFullName t.Database t.Name) then result ++ [t]
            else result)
          result)
      [], none)

/-- main.go `parseArgsForRestore`: the catalog is a Go map, modelled as the
list of its key/value pairs in iteration order.  No patterns defaults to
`["*"]`; a matching table is kept when the increment list is empty or
contains its increment (the inner loop with `break`).  Always returns a nil
error. -/
def parseArgsForRestore (tables : List (String × BackupTable)) (args : List String)
    (increments : List Int) : List BackupTable × Option String :=
  let args2 := if args.length = 0 then ["*"] else args
  (args2.foldl
    (fun result arg =>
      tables.foldl
        (fun result kt =>
          if matchedOnly arg (tableFullName kt.2.Database kt.2.Name) then
            if increments.length = 0 then result ++ [kt.2]
            else if increments.any (fun n => n == kt.2.Increment) then result ++ [kt.2]
            else result
          else result)
        result)
    [], none)

/-- main.go `parseArgsForDownload`: the first argument when there is exactly
one, the empty string otherwise. -/
def parseArgsForDownload (args : List String) : String :=
  match args with
  | [a] => a
  | _ => ""

theorem freeze_inner_foldl (arg : String) :
    ∀ (tables : List Table) (acc : List Table),
      tables.foldl
        (fun result t =>
          if matchedOnly arg (tableFullName t.Database t.Name) then result ++ [t] else result)
        acc
      = acc ++ tables.filter (fun t => matchedOnly arg (tableFullName t.Database t.Name)) := by
  intro tables
  induction tables with
  | nil => intro acc; simp
  | cons t ts ih =>
    intro acc
    by_cases h : matchedOnly arg (tableFullName t.Database t.Name) <;>
      simp [h, ih, List.filter_cons]

theorem freeze_outer_foldl (tables : List Table) :
    ∀ (args : List String) (acc : List Table),
      args.foldl
        (fun result arg =>
          tables.foldl
            (fun result t =>
              if matchedOnly arg (tableFullName t.Database t.Name) then result ++ [t]
              else result)
            result)
        acc
      = acc ++ args.flatMap
          (fun arg =>
            tables.filter (fun t => matchedOnly arg (tableFullName t.Database t.Name))) := by
  intro args
  induction args with
  | nil => intro acc; simp
  | cons a as ih =>
    intro acc
    rw [List.foldl_cons, freeze_inner_foldl, ih, List.flatMap_cons, List.append_assoc]

theorem foldl_append_if_snd (p : BackupTable → Bool) :
    ∀ (l : List (String × BackupTable)) (acc : List BackupTable),
      l.foldl (fun r kt => if p kt.2 then r ++ [kt.2] else r) acc
        = acc ++ (l.map Prod.snd).filter p := by
  intro l
  induction l with
  | nil => intro acc; simp
  | cons kt ts ih =>
    intro acc
    by_cases h : p kt.2 <;> simp [h, ih, List.filter_cons]

theorem restore_inner_foldl (arg : String) (increments : List Int)
    (tables : List (String × BackupTable)) (acc : List BackupTable) :
    tables.foldl
      (fun result kt =>
        if matchedOnly arg (tableFullName kt.2.Database kt.2.Name) then
          if increments.length = 0 then result ++ [kt.2]
          else if increments.any (fun n => n == kt.2.Increment) then result ++ [kt.2]
          else result
        else result)
      acc
    = acc ++ (tables.map Prod.snd).filter
        (fun t => matchedOnly arg (tableFullName t.Database t.Name) &&
          (increments.isEmpty || increments.any (fun n => n == t.Increment))) := by
  have hfun : (fun (result : List BackupTable) (kt : String × BackupTable) =>
      if matchedOnly arg (tableFullName kt.2.Database kt.2.Name) then
        if increments.length = 0 then result ++ [kt.2]
        else if increments.any (fun n => n == kt.2.Increment) then result ++ [kt.2]
        else result
      else result)
      = (fun result kt =>
          if (matchedOnly arg (tableFullName kt.2.Database kt.2.Name) &&
              (increments.isEmpty || increments.any (fun n => n == kt.2.Increment))) then
            result ++ [kt.2]
          else result) := by
    funext result kt
    by_cases h1 : matchedOnly arg (tableFullName kt.2.Database kt.2.Name) <;>
      by_cases h2 : increments = [] <;>
        by_cases h3 : (increments.any fun n => n == kt.2.Increment) = true <;>
          simp [h1, h2, h3, List.length_eq_zero]
  rw [hfun]
  exact foldl_append_if_snd
    (fun t => matchedOnly arg (tableFullName t.Database t.Name) &&
      (increments.isEmpty || increments.any fun n => n == t.Increment))
    tables acc

theorem restore_outer_foldl (tables : List (String × BackupTable)) (increments : List Int) :
    ∀ (args : List String) (acc : List BackupTable),
      args.foldl
        (fun result arg =>
          tables.foldl
            (fun result kt =>
              if matchedOnly arg (tableFullName kt.2.Database kt.2.Name) then
                if increments.length = 0 then result ++ [kt.2]
                else if increments.any (fun n => n == kt.2.Increment) then result ++ [kt.2]
                else result
              else result)
            result)
        acc
      = acc ++ args.flatMap
          (fun arg => (tables.map Prod.snd).filter
            (fun t => matchedOnly arg (tableFullName t.Database t.Name) &&
              (increments.isEmpty || increments.any (fun n => n == t.Increment)))) := by
  intro args
  induction args with
  | nil => intro acc; simp
  | cons a as ih =>
    intro acc
    rw [List.foldl_cons, restore_inner_foldl, ih, List.flatMap_cons, List.append_assoc]

def demoT1 : Table := ⟨"a", "t1"⟩

def demoT2 : Table := ⟨"b", "t2"⟩

def demoCatalog : List Table := [demoT1, demoT2]

def demoPatterns : List String := ["b.t2", "a.t1"]

/-- Counterexample to claim C4 as frozen: with catalog `[a.t1, b.t2]` and
patterns `["b.t2", "a.t1"]` the selector returns `[b.t2, a.t1]` — the
relative order of the two selected tables follows the pattern order, not
the catalog iteration order (which would give `[a.t1, b.t2]`, the catalog
filtered by membership in the result). -/
theorem selectors_not_catalog_order :
    (parseArgsForFreeze demoCatalog demoPatterns).1 = [demoT2, demoT1] ∧
    demoCatalog.filter (fun t => (parseArgsForFreeze demoCatalog demoPatterns).1.contains t)
      = [demoT1, demoT2] ∧
    (parseArgsForFreeze demoCatalog demoPatterns).1 ≠
      demoCatalog.filter
        (fun t => (parseArgsForFreeze demoCatalog demoPatterns).1.contains t) ∧
    ¬ (parseArgsForFreeze demoCatalog demoPatterns).1.Sublist demoCatalog := by decide

/-- Claim C4 (amended): the selectors return the selected tables grouped by
pattern in pattern-list order; within the group of one pattern, catalog
iteration order is preserved.  Patterns therefore filter membership, but the
relative order of tables selected by different patterns follows the pattern
list, not the catalog. -/
theorem selectors_pattern_major_order :
    (∀ (tables : List Table) (args : List String),
      (parseArgsForFreeze tables args).1 =
        if args.length = 0 then tables
        else args.flatMap
          (fun arg =>
            tables.filter (fun t => matchedOnly arg (tableFullName t.Database t.Name)))) ∧
    (∀ (tables : List (String × BackupTable)) (args : List String) (increments : List Int),
      (parseArgsForRestore tables args increments).1 =
        (if args.length = 0 then ["*"] else args).flatMap
          (fun arg => (tables.map Prod.snd).filter
            (fun t => matchedOnly arg (tableFullName t.Database t.Name) &&
              (increments.isEmpty || increments.any (fun n => n == t.Increment))))) := by
  constructor
  · intro tables args
    by_cases h : args.length = 0
    · simp [parseArgsForFreeze, h]
    · simp only [parseArgsForFreeze, h, if_false]
      simpa using freeze_outer_foldl tables args []
  · intro tables args increments
    simp only [parseArgsForRestore]
    simpa using restore_outer_foldl tables increments (if args.length = 0 then ["*"] else args) []

/-- Claim C9: the selectors are total — they always return a nil error, for
every catalog, pattern list and increment list; and a syntactically invalid
glob pattern (here `"["`, which `filepath.Match` rejects with
`ErrBadPattern`) raises nothing and simply selects no table. -/
theorem selectors_never_error :
    (∀ (tables : List Table) (args : List String),
      (parseArgsForFreeze tables args).2 = none) ∧
    (∀ (tables : List (String × BackupTable)) (args : List String) (increments : List Int),
      (parseArgsForRestore tables args increments).2 = none) ∧
    (∀ name : String, matchedOnly "[" name = false) ∧
    (∀ tables : List Table, (parseArgsForFreeze tables ["["]).1 = []) := by
  have hbad : ∀ name : String, matchedOnly "[" name = false := by
    intro name
    obtain ⟨data⟩ := name
    cases data with
    | nil => rfl
    | cons c cs => rfl
  refine ⟨?_, ?_, hbad, ?_⟩
  · intro tables args
    by_cases h : args.length = 0 <;> simp [parseArgsForFreeze, h]
  · intro tables args increments
    simp [parseArgsForRestore]
  · intro tables
    have h1 : (parseArgsForFreeze tables ["["]).1 =
        ["["].flatMap
          (fun arg =>
            tables.filter (fun t => matchedOnly arg (tableFullName t.Database t.Name))) := by
      simp only [parseArgsForFreeze]
      rw [show (["["] : List String).length = 1 from rfl]
      simp only [Nat.one_ne_zero, if_false]
      exact freeze_outer_foldl tables ["["] []
    rw [h1]
    simp [hbad]

/-! ### The freeze operation (main.go `freeze`) -/

/-- The answer `ioutil.ReadDir(shadowPath)` gives: an error satisfying
`os.IsNotExist`, another error, or the entry listing. -/
inductive ShadowListing where
  | notExist
  | listErr (e : String)
  | ok (files : List String)
deriving DecidableEq, Repr

/-- The collaborator answers one run of `freeze` observes: the ClickHouse
connect error, the `GetDataPath` answer, the shadow-directory listing, the
`GetTables` answer, and the per-table outcome of `FreezeTable`. -/
structure FreezeEnv where
  connectErr : Option String
  dataPath : String
  dataPathErr : Option String
  shadow : ShadowListing
  tablesRes : Except String (List Table)
  freezeErr : Table → Option String

/-- The fail-fast `FreezeTable` loop at the end of `freeze`: returns the
tables the freeze primitive was invoked on (in order, including a failing
one) and the result. -/
def freezeLoop (ferr : Table → Option String) : List Table → List Table × Except String Unit
  | [] => ([], Except.ok ())
  | t :: ts =>
    match ferr t with
    | some e => ([t], Except.error e)
    | none =>
      let r := freezeLoop ferr ts
      (t :: r.1, r.2)

/-- main.go `freeze`: connect, resolve the data path, require the shadow
directory to be absent or empty, list the tables, select via
`parseArgsForFreeze`, succeed as a no-op on an empty selection, otherwise
freeze each selected table fail-fast.  The first component is the trace of
`FreezeTable` invocations. -/
def freezeGo (env : FreezeEnv) (args : List String) : List Table × Except String Unit :=
  match env.connectErr with
  | some e => ([], Except.error ("cannot connect to clickouse with: " ++ e))
  | none =>
    if env.dataPathErr.isSome || env.dataPath == "" then
      ([], Except.error "cannot get data path from clickhouse")
    else
      match env.shadow with
      | ShadowListing.listErr e =>
        ([], Except.error ("cannot read " ++ env.dataPath ++ "/shadow directory: " ++ e))
      | ShadowListing.ok (_ :: _) =>
        ([], Except.error (env.dataPath ++ "/shadow is not empty, will not execute freeze"))
      | _ =>
        match env.tablesRes with
        | Except.error e => ([], Except.error ("cannot get Clickhouse tables with: " ++ e))
        | Except.ok allTables =>
          let backupTables := (parseArgsForFreeze allTables args).1
          if backupTables.length = 0 then ([], Except.ok ())
          else freezeLoop env.freezeErr backupTables

/-- Claim C5: when listing the shadow staging directory fails for a reason
other than non-existence, or when the listing is non-empty, `freeze` returns
an error and the external freeze primitive is never invoked; conversely the
freeze primitive is only ever invoked when the shadow directory is absent or
empty. -/
theorem freeze_requires_empty_shadow (env : FreezeEnv) (args : List String) :
    ((∃ e, env.shadow = ShadowListing.listErr e) ∨
        (∃ f fs, env.shadow = ShadowListing.ok (f :: fs)) →
      (freezeGo env args).1 = [] ∧ ∃ m, (freezeGo env args).2 = Except.error m) ∧
    ((freezeGo env args).1 ≠ [] →
      env.shadow = ShadowListing.notExist ∨ env.shadow = ShadowListing.ok []) := by
  constructor
  · intro hbad
    cases hc : env.connectErr with
    | some e =>
      refine ⟨by simp [freezeGo, hc], ?_⟩
      simp [freezeGo, hc]
    | none =>
      by_cases hdp : env.dataPathErr.isSome || env.dataPath == ""
      · refine ⟨by simp [freezeGo, hc, hdp], ?_⟩
        simp [freezeGo, hc, hdp]
      · rcases hbad with ⟨e, hsh⟩ | ⟨f, fs, hsh⟩
        · refine ⟨by simp [freezeGo, hc, hdp, hsh], ?_⟩
          simp [freezeGo, hc, hdp, hsh]
        · refine ⟨by simp [freezeGo, hc, hdp, hsh], ?_⟩
          simp [freezeGo, hc, hdp, hsh]
  · intro htrace
    by_contra hsh
    push_neg at hsh
    obtain ⟨hne, hnok⟩ := hsh
    apply htrace
    cases hc : env.connectErr with
    | some e => simp [freezeGo, hc]
    | none =>
      by_cases hdp : env.dataPathErr.isSome || env.dataPath == ""
      · simp [freezeGo, hc, hdp]
      · cases hshadow : env.shadow with
        | notExist => exact absurd hshadow hne
        | listErr e => simp [freezeGo, hc, hdp, hshadow]
        | ok files =>
          cases files with
          | nil => exact absurd hshadow hnok
          | cons f fs => simp [freezeGo, hc, hdp, hshadow]

def demoFreezeEnv : FreezeEnv :=
  { connectErr := none
    dataPath := "/var/lib/clickhouse"
    dataPathErr := none
    shadow := ShadowListing.ok ["20190502_1"]
    tablesRes := Except.ok [⟨"salesdb", "events"⟩]
    freezeErr := fun _ => none }

theorem freeze_requires_empty_shadow_witness :
    ((∃ e, demoFreezeEnv.shadow = ShadowListing.listErr e) ∨
      (∃ f fs, demoFreezeEnv.shadow = ShadowListing.ok (f :: fs))) ∧
    ((freezeGo demoFreezeEnv ["salesdb.*"]).1 = [] ∧
      ∃ m, (freezeGo demoFreezeEnv ["salesdb.*"]).2 = Except.error m) :=
  ⟨Or.inr ⟨"20190502_1", [], rfl⟩,
    (freeze_requires_empty_shadow demoFreezeEnv ["salesdb.*"]).1
      (Or.inr ⟨"20190502_1", [], rfl⟩)⟩

/-! ### The create-tables operation (main.go `createTables`) -/

/-- One entry of a database directory under `backup/metadata/<db>/`, with
the `ioutil.ReadFile` answer for it. -/
structure TableFileEnt where
  name : String
  content : Except String String
deriving Repr

/-- One entry of `backup/metadata/`, with the `ioutil.ReadDir` answer for
the database directory. -/
structure DbEnt where
  name : String
  isDir : Bool
  tableFiles : Except String (List TableFileEnt)
deriving Repr

/-- The collaborator answers one run of `createTables` observes. -/
structure CreateEnv where
  connectErr : Option String
  dataPath : String
  dataPathErr : Option String
  metaDir : Except String (List DbEnt)
  createTableErr : RestoreTable → Option String

/-- A ClickHouse DDL call performed by `createTables`. -/
inductive ChOp where
  | createDatabase (name : String)
  | createTable (t : RestoreTable)
deriving DecidableEq, Repr

/-- main.go line 265: `strings.Replace(string(dat), "ATTACH", "CREATE", 1)`. -/
def rewriteAttach (dat : String) : String := goReplaceFirst dat "ATTACH" "CREATE"

/-- main.go line 267: `strings.Contains(q, "ENGINE = Distributed")`. -/
def isDistributedQuery (q : String) : Bool := strContains q "ENGINE = Distributed"

def isDistCreate : ChOp → Bool
  | ChOp.createTable t => isDistributedQuery t.Query
  | ChOp.createDatabase _ => false

def isNonDistCreate : ChOp → Bool
  | ChOp.createTable t => !isDistributedQuery t.Query
  | ChOp.createDatabase _ => false

/-- Accumulated effect of the first pass of `createTables`: DDL calls made,
log lines emitted, distributed tables deferred to the second pass, and the
error that aborted the run, if any. -/
structure RunAcc where
  ops : List ChOp
  logs : List String
  deferred : List RestoreTable
  failure : Option String
deriving Repr

/-- The inner loop of `createTables` over the `.sql` files of one database:
rewrite ATTACH → CREATE, defer distributed-engine definitions, execute the
others immediately, logging and skipping individual `CreateTable` failures;
a `ReadFile` failure aborts. -/
def processTableFiles (ctErr : RestoreTable → Option String) (dbName : String) :
    List TableFileEnt → RunAcc
  | [] => ⟨[], [], [], none⟩
  | tf :: tfs =>
    if strEndsWith tf.name "sql" then
      match tf.content with
      | Except.error e => ⟨[], [], [], some ("cannot read file: " ++ e)⟩
      | Except.ok dat =>
        let q := rewriteAttach dat
        if isDistributedQuery q then
          let r := processTableFiles ctErr dbName tfs
          { r with deferred := ⟨dbName, q⟩ :: r.deferred }
        else
          let t : RestoreTable := ⟨dbName, q⟩
          let r := processTableFiles ctErr dbName tfs
          match ctErr t with
          | some e =>
            { r with
              ops := ChOp.createTable t :: r.ops
              logs := ("ERROR Table creation failed: " ++ e) :: r.logs }
          | none => { r with ops := ChOp.createTable t :: r.ops }
    else processTableFiles ctErr dbName tfs

/-- The outer loop of `createTables` over the entries of the metadata
directory: skip non-directories and the `system` database, create each
database, process its table files; a `ReadDir` failure aborts. -/
def processDbs (ctErr : RestoreTable → Option String) : List DbEnt → RunAcc
  | [] => ⟨[], [], [], none⟩
  | db :: dbs =>
    if db.isDir then
      if db.name == "system" then processDbs ctErr dbs
      else
        match db.tableFiles with
        | Except.error e =>
          ⟨[ChOp.createDatabase db.name], [],
            [], some ("cannot read database directory in metadata dir: " ++ e)⟩
        | Except.ok tfs =>
          let r := processTableFiles ctErr db.name tfs
          match r.failure with
          | some e =>
            ⟨ChOp.createDatabase db.name :: r.ops, r.logs, r.deferred, some e⟩
          | none =>
            let r2 := processDbs ctErr dbs
            ⟨ChOp.createDatabase db.name :: r.ops ++ r2.ops, r.logs ++ r2.logs,
              r.deferred ++ r2.deferred, r2.failure⟩
    else processDbs ctErr dbs

/-- The second pass of `createTables`: create the deferred distributed
tables, logging and skipping individual failures. -/
def deferredPass (ctErr : RestoreTable → Option String) :
    List RestoreTable → List ChOp × List String
  | [] => ([], [])
  | t :: ts =>
    let r := deferredPass ctErr ts
    match ctErr t with
    | some e => (ChOp.createTable t :: r.1, ("ERROR Table creation failed: " ++ e) :: r.2)
    | none => (ChOp.createTable t :: r.1, r.2)

/-- Overall result of one `createTables` run: the DDL trace, the log lines,
and the returned error, if any. -/
structure RunResult where
  ops : List ChOp
  logs : List String
  result : Except String Unit
deriving Repr

/-- main.go `createTables`: connect, resolve the data path, read the
metadata directory, run the two passes. -/
def createTablesGo (env : CreateEnv) : RunResult :=
  match env.connectErr with
  | some e => ⟨[], [], Except.error ("cannot connect to clickouse with: " ++ e)⟩
  | none =>
    if env.dataPathErr.isSome || env.dataPath == "" then
      ⟨[], [], Except.error "cannot get data path from clickhouse"⟩
    else
      match env.metaDir with
      | Except.error e =>
        ⟨[], [], Except.error ("cannot read metadata directory for creating tables: " ++ e)⟩
      | Except.ok dbs =>
        let r := processDbs env.createTableErr dbs
        match r.failure with
        | some e => ⟨r.ops, r.logs, Except.error e⟩
        | none =>
          let second := deferredPass env.createTableErr r.deferred
          ⟨r.ops ++ second.1, r.logs ++ second.2, Except.ok ()⟩

theorem processTableFiles_ops_not_dist (ctErr : RestoreTable → Option String)
    (dbName : String) :
    ∀ tfs, ∀ op ∈ (processTableFiles ctErr dbName tfs).ops, isDistCreate op = false := by
  intro tfs
  induction tfs with
  | nil => intro op hop; simp [processTableFiles] at hop
  | cons tf tfs ih =>
    intro op hop
    by_cases hsql : strEndsWith tf.name "sql"
    · cases hcontent : tf.content with
      | error e => simp [processTableFiles, hsql, hcontent] at hop
      | ok dat =>
        by_cases hdist : isDistributedQuery (rewriteAttach dat)
        · simp [processTableFiles, hsql, hcontent, hdist] at hop
          exact ih op hop
        · cases hct : ctErr ⟨dbName, rewriteAttach dat⟩ with
          | some e =>
            simp [processTableFiles, hsql, hcontent, hdist, hct] at hop
            rcases hop with rfl | hop
            · simp [isDistCreate, hdist]
            · exact ih op hop
          | none =>
            simp [processTableFiles, hsql, hcontent, hdist, hct] at hop
            rcases hop with rfl | hop
            · simp [isDistCreate, hdist]
            · exact ih op hop
    · simp [processTableFiles, hsql] at hop
      exact ih op hop

theorem processTableFiles_deferred_dist (ctErr : RestoreTable → Option String)
    (dbName : String) :
    ∀ tfs, ∀ t ∈ (processTableFiles ctErr dbName tfs).deferred,
      isDistributedQuery t.Query = true := by
  intro tfs
  induction tfs with
  | nil => intro t ht; simp [processTableFiles] at ht
  | cons tf tfs ih =>
    intro t ht
    by_cases hsql : strEndsWith tf.name "sql"
    · cases hcontent : tf.content with
      | error e => simp [processTableFiles, hsql, hcontent] at ht
      | ok dat =>
        by_cases hdist : isDistributedQuery (rewriteAttach dat)
        · simp [processTableFiles, hsql, hcontent, hdist] at ht
          rcases ht with rfl | ht
          · exact hdist
          · exact ih t ht
        · cases hct : ctErr ⟨dbName, rewriteAttach dat⟩ with
          | some e =>
            simp [processTableFiles, hsql, hcontent, hdist, hct] at ht
            exact ih t ht
          | none =>
            simp [processTableFiles, hsql, hcontent, hdist, hct] at ht
            exact ih t ht
    · simp [processTableFiles, hsql] at ht
      exact ih t ht

theorem processDbs_ops_not_dist (ctErr : RestoreTable → Option String) :
    ∀ dbs, ∀ op ∈ (processDbs ctErr dbs).ops, isDistCreate op = false := by
  intro dbs
  induction dbs with
  | nil => intro op hop; simp [processDbs] at hop
  | cons db dbs ih =>
    intro op hop
    by_cases hdir : db.isDir
    · by_cases hsys : db.name == "system"
      · simp [processDbs, hdir, hsys] at hop
        exact ih op hop
      · cases htf : db.tableFiles with
        | error e =>
          simp [processDbs, hdir, hsys, htf] at hop
          subst hop
          rfl
        | ok tfs =>
          cases hfail : (processTableFiles ctErr db.name tfs).failure with
          | some e =>
            simp [processDbs, hdir, hsys, htf, hfail] at hop
            rcases hop with rfl | hop
            · rfl
            · exact processTableFiles_ops_not_dist ctErr db.name tfs op hop
          | none =>
            simp [processDbs, hdir, hsys, htf, hfail] at hop
            rcases hop with rfl | hop | hop
            · rfl
            · exact processTableFiles_ops_not_dist ctErr db.name tfs op hop
            · exact ih op hop
    · simp [processDbs, hdir] at hop
      exact ih op hop

theorem processDbs_deferred_dist (ctErr : RestoreTable → Option String) :
    ∀ dbs, ∀ t ∈ (processDbs ctErr dbs).deferred, isDistributedQuery t.Query = true := by
  intro dbs
  induction dbs with
  | nil => intro t ht; simp [processDbs] at ht
  | cons db dbs ih =>
    intro t ht
    by_cases hdir : db.isDir
    · by_cases hsys : db.name == "system"
      · simp [processDbs, hdir, hsys] at ht
        exact ih t ht
      · cases htf : db.tableFiles with
        | error e => simp [processDbs, hdir, hsys, htf] at ht
        | ok tfs =>
          cases hfail : (processTableFiles ctErr db.name tfs).failure with
          | some e =>
            simp [processDbs, hdir, hsys, htf, hfail] at ht
            exact processTableFiles_deferred_dist ctErr db.name tfs t ht
          | none =>
            simp [processDbs, hdir, hsys, htf, hfail] at ht
            rcases ht with ht | ht
            · exact processTableFiles_deferred_dist ctErr db.name tfs t ht
            · exact ih t ht
    · simp [processDbs, hdir] at ht
      exact ih t ht

theorem deferredPass_fst (ctErr : RestoreTable → Option String) :
    ∀ ts, (deferredPass ctErr ts).1 = ts.map ChOp.createTable := by
  intro ts
  induction ts with
  | nil => rfl
  | cons t ts ih =>
    cases hct : ctErr t <;> simp [deferredPass, hct, ih]

theorem pairwise_of_no_dist {l : List ChOp}
    (h : ∀ op ∈ l, isDistCreate op = false) :
    l.Pairwise (fun a b => isDistCreate a = true → isNonDistCreate b = false) := by
  induction l with
  | nil => exact List.Pairwise.nil
  | cons a l ih =>
    refine List.Pairwise.cons (fun b _ hdist => ?_)
      (ih fun op hop => h op (List.mem_cons_of_mem a hop))
    exact absurd hdist (by simp [h a (List.mem_cons_self a l)])

theorem pairwise_of_all_dist {l : List ChOp}
    (h : ∀ op ∈ l, isNonDistCreate op = false) :
    l.Pairwise (fun a b => isDistCreate a = true → isNonDistCreate b = false) := by
  induction l with
  | nil => exact List.Pairwise.nil
  | cons a l ih =>
    exact List.Pairwise.cons (fun b hb _ => h b (List.mem_cons_of_mem a hb))
      (ih fun op hop => h op (List.mem_cons_of_mem a hop))

/-- Claim C6: in the DDL trace of any `createTables` run — whatever the
enumeration order of database directories and table definition files, and
whatever errors occur — no table creation with a distributed-engine query
ever precedes a non-distributed table creation; every distributed creation
happens strictly after all non-distributed creations. -/
theorem createTables_distributed_last (env : CreateEnv) :
    (createTablesGo env).ops.Pairwise
      (fun a b => isDistCreate a = true → isNonDistCreate b = false) := by
  cases hc : env.connectErr with
  | some e => simp [createTablesGo, hc]
  | none =>
    by_cases hdp : env.dataPathErr.isSome || env.dataPath == ""
    · simp [createTablesGo, hc, hdp]
    · cases hmeta : env.metaDir with
      | error e => simp [createTablesGo, hc, hdp, hmeta]
      | ok dbs =>
        cases hfail : (processDbs env.createTableErr dbs).failure with
        | some e =>
          have hops : (createTablesGo env).ops = (processDbs env.createTableErr dbs).ops := by
            simp [createTablesGo, hc, hdp, hmeta, hfail]
          rw [hops]
          exact pairwise_of_no_dist (processDbs_ops_not_dist env.createTableErr dbs)
        | none =>
          have hops : (createTablesGo env).ops =
              (processDbs env.createTableErr dbs).ops ++
                (deferredPass env.createTableErr
                  (processDbs env.createTableErr dbs).deferred).1 := by
            simp [createTablesGo, hc, hdp, hmeta, hfail]
          rw [hops, deferredPass_fst]
          rw [List.pairwise_append]
          refine ⟨pairwise_of_no_dist (processDbs_ops_not_dist env.createTableErr dbs),
            pairwise_of_all_dist ?_, ?_⟩
          · intro op hop
            obtain ⟨t, ht, rfl⟩ := List.mem_map.mp hop
            simp [isNonDistCreate, processDbs_deferred_dist env.createTableErr dbs t ht]
          · intro a _ b hb _
            obtain ⟨t, ht, rfl⟩ := List.mem_map.mp hb
            simp [isNonDistCreate, processDbs_deferred_dist env.createTableErr dbs t ht]

theorem processTableFiles_ctErr_indep (f g : RestoreTable → Option String)
    (dbName : String) :
    ∀ tfs, (processTableFiles f dbName tfs).ops = (processTableFiles g dbName tfs).ops ∧
      (processTableFiles f dbName tfs).deferred = (processTableFiles g dbName tfs).deferred ∧
      (processTableFiles f dbName tfs).failure = (processTableFiles g dbName tfs).failure := by
  intro tfs
  induction tfs with
  | nil => exact ⟨rfl, rfl, rfl⟩
  | cons tf tfs ih =>
    obtain ⟨ihops, ihdef, ihfail⟩ := ih
    by_cases hsql : strEndsWith tf.name "sql"
    · cases hcontent : tf.content with
      | error e => simp [processTableFiles, hsql, hcontent]
      | ok dat =>
        by_cases hdist : isDistributedQuery (rewriteAttach dat)
        · simp [processTableFiles, hsql, hcontent, hdist, ihops, ihdef, ihfail]
        · cases hcf : f ⟨dbName, rewriteAttach dat⟩ <;>
            cases hcg : g ⟨dbName, rewriteAttach dat⟩ <;>
              simp [processTableFiles, hsql, hcontent, hdist, hcf, hcg, ihops, ihdef, ihfail]
    · simpa [processTableFiles, hsql] using ⟨ihops, ihdef, ihfail⟩

theorem processDbs_ctErr_indep (f g : RestoreTable → Option String) :
    ∀ dbs, (processDbs f dbs).ops = (processDbs g dbs).ops ∧
      (processDbs f dbs).deferred = (processDbs g dbs).deferred ∧
      (processDbs f dbs).failure = (processDbs g dbs).failure := by
  intro dbs
  induction dbs with
  | nil => exact ⟨rfl, rfl, rfl⟩
  | cons db dbs ih =>
    obtain ⟨ihops, ihdef, ihfail⟩ := ih
    by_cases hdir : db.isDir
    · by_cases hsys : db.name == "system"
      · simpa [processDbs, hdir, hsys] using ⟨ihops, ihdef, ihfail⟩
      · cases htf : db.tableFiles with
        | error e => simp [processDbs, hdir, hsys, htf]
        | ok tfs =>
          obtain ⟨pops, pdef, pfail⟩ := processTableFiles_ctErr_indep f g db.name tfs
          cases hfail : (processTableFiles f db.name tfs).failure with
          | some e =>
            have hfail2 : (processTableFiles g db.name tfs).failure = some e := by
              rw [← pfail, hfail]
            simp [processDbs, hdir, hsys, htf, hfail, hfail2, pops, pdef]
          | none =>
            have hfail2 : (processTableFiles g db.name tfs).failure = none := by
              rw [← pfail, hfail]
            simp [processDbs, hdir, hsys, htf, hfail, hfail2, pops, pdef, ihops, ihdef, ihfail]
    · simpa [processDbs, hdir] using ⟨ihops, ihdef, ihfail⟩

/-- Whether an `ioutil.ReadFile` answer succeeded. -/
def exContentOk : Except String String → Bool
  | Except.ok _ => true
  | Except.error _ => false

/-- Reads needed for one metadata database entry all succeed (non-dirs and
the skipped `system` database are unconstrained, as are files the run never
reads because their name does not end in `sql`). -/
def dbEntReadsOk (db : DbEnt) : Bool :=
  !db.isDir || db.name == "system" ||
    (match db.tableFiles with
     | Except.error _ => false
     | Except.ok tfs => tfs.all fun tf => !strEndsWith tf.name "sql" || exContentOk tf.content)

/-- All collaborator reads of one `createTables` run succeed; table-creation
outcomes are deliberately unconstrained. -/
def createEnvReadsOk (env : CreateEnv) : Bool :=
  env.connectErr.isNone && !(env.dataPathErr.isSome || env.dataPath == "") &&
    (match env.metaDir with
     | Except.error _ => false
     | Except.ok dbs => dbs.all dbEntReadsOk)

theorem processTableFiles_reads_ok (ctErr : RestoreTable → Option String)
    (dbName : String) :
    ∀ tfs, (tfs.all fun tf => !strEndsWith tf.name "sql" || exContentOk tf.content) = true →
      (processTableFiles ctErr dbName tfs).failure = none := by
  intro tfs
  induction tfs with
  | nil => intro _; rfl
  | cons tf tfs ih =>
    intro hall
    rw [List.all_cons, Bool.and_eq_true] at hall
    obtain ⟨hhead, htail⟩ := hall
    by_cases hsql : strEndsWith tf.name "sql"
    · cases hcontent : tf.content with
      | error e =>
        rw [hsql, hcontent] at hhead
        simp [exContentOk] at hhead
      | ok dat =>
        by_cases hdist : isDistributedQuery (rewriteAttach dat)
        · simp [processTableFiles, hsql, hcontent, hdist, ih htail]
        · cases hct : ctErr ⟨dbName, rewriteAttach dat⟩ <;>
            simp [processTableFiles, hsql, hcontent, hdist, hct, ih htail]
    · simp [processTableFiles, hsql, ih htail]

theorem processDbs_reads_ok (ctErr : RestoreTable → Option String) :
    ∀ dbs, dbs.all dbEntReadsOk = true → (processDbs ctErr dbs).failure = none := by
  intro dbs
  induction dbs with
  | nil => intro _; rfl
  | cons db dbs ih =>
    intro hall
    rw [List.all_cons, Bool.and_eq_true] at hall
    obtain ⟨hhead, htail⟩ := hall
    by_cases hdir : db.isDir
    · by_cases hsys : db.name == "system"
      · simp [processDbs, hdir, hsys, ih htail]
      · have hsysb : (db.name == "system") = false := by
          cases hb : db.name == "system" with
          | false => rfl
          | true => exact absurd hb hsys
        cases htf : db.tableFiles with
        | error e =>
          rw [dbEntReadsOk, hdir, hsysb, htf] at hhead
          simp at hhead
        | ok tfs =>
          have hfiles : (tfs.all fun tf =>
              !strEndsWith tf.name "sql" || exContentOk tf.content) = true := by
            rw [dbEntReadsOk, hdir, hsysb, htf] at hhead
            simpa using hhead
          have hnone := processTableFiles_reads_ok ctErr db.name tfs hfiles
          simp [processDbs, hdir, hsys, htf, hnone, ih htail]
    · simp [processDbs, hdir, ih htail]

/-- Claim C7: `createTables` is best-effort with respect to individual
table-creation failures — the DDL trace and the returned result are the
same whatever per-table errors `CreateTable` produces (only the log lines
differ), and when all directory and file reads succeed the run returns
success even if every individual table creation failed. -/
theorem createTables_best_effort (env : CreateEnv) (f g : RestoreTable → Option String) :
    ((createTablesGo { env with createTableErr := f }).ops =
        (createTablesGo { env with createTableErr := g }).ops ∧
      (createTablesGo { env with createTableErr := f }).result =
        (createTablesGo { env with createTableErr := g }).result) ∧
    (createEnvReadsOk env = true →
      (createTablesGo { env with createTableErr := f }).result = Except.ok ()) := by
  constructor
  · cases hc : env.connectErr with
    | some e => simp [createTablesGo, hc]
    | none =>
      by_cases hdp : env.dataPathErr.isSome || env.dataPath == ""
      · simp [createTablesGo, hc, hdp]
      · cases hmeta : env.metaDir with
        | error e => simp [createTablesGo, hc, hdp, hmeta]
        | ok dbs =>
          obtain ⟨pops, pdef, pfail⟩ := processDbs_ctErr_indep f g dbs
          cases hfail : (processDbs f dbs).failure with
          | some e =>
            have hfail2 : (processDbs g dbs).failure = some e := by rw [← pfail, hfail]
            simp [createTablesGo, hc, hdp, hmeta, hfail, hfail2, pops]
          | none =>
            have hfail2 : (processDbs g dbs).failure = none := by rw [← pfail, hfail]
            simp [createTablesGo, hc, hdp, hmeta, hfail, hfail2, pops, pdef,
              deferredPass_fst]
  · intro hok
    rw [createEnvReadsOk] at hok
    simp only [Bool.and_eq_true] at hok
    obtain ⟨⟨hconn, hdp⟩, hmetaok⟩ := hok
    have hc : env.connectErr = none := by
      cases hcc : env.connectErr with
      | none => rfl
      | some e => rw [hcc] at hconn; simp at hconn
    have hdp2 : (env.dataPathErr.isSome || env.dataPath == "") = false := by
      cases hb : env.dataPathErr.isSome || env.dataPath == "" with
      | false => rfl
      | true => rw [hb] at hdp; simp at hdp
    cases hmeta : env.metaDir with
    | error e => rw [hmeta] at hmetaok; simp at hmetaok
    | ok dbs =>
      have hall : dbs.all dbEntReadsOk = true := by
        rw [hmeta] at hmetaok
        simpa using hmetaok
      have hnone := processDbs_reads_ok f dbs hall
      simp [createTablesGo, hc, hdp2, hmeta, hnone]

def demoMetaGood : TableFileEnt :=
  ⟨"events.sql", Except.ok "ATTACH TABLE events (d Date) ENGINE = MergeTree(d, d, 8192)"⟩

def demoMetaBad : TableFileEnt :=
  ⟨"broken.sql", Except.ok "ATTACH TABLE broken (x UInt8) ENGINE = MergeTree(x, x, 8192)"⟩

def demoMetaDist : TableFileEnt :=
  ⟨"events_all.sql",
    Except.ok "ATTACH TABLE events_all (d Date) ENGINE = Distributed(c, salesdb, events)"⟩

def demoCreateEnv : CreateEnv :=
  { connectErr := none
    dataPath := "/var/lib/clickhouse"
    dataPathErr := none
    metaDir := Except.ok [⟨"salesdb", true, Except.ok [demoMetaBad, demoMetaGood, demoMetaDist]⟩]
    createTableErr := fun _ => none }

def demoFailOnBroken : RestoreTable → Option String :=
  fun t => if strContains t.Query "broken" then some "Syntax error" else none

theorem createTables_best_effort_witness :
    createEnvReadsOk demoCreateEnv = true ∧
    (createTablesGo { demoCreateEnv with createTableErr := demoFailOnBroken }).result =
      Except.ok () :=
  ⟨by decide,
    (createTables_best_effort demoCreateEnv demoFailOnBroken (fun _ => none)).2 (by decide)⟩

/-! ### Retention (main.go `removeOldBackups`) -/

/-- One stored object: remote key and last-modified timestamp (modelled as
an integer; the Go code compares `time.Time` values by the sign of their
difference, which is exactly integer comparison). -/
structure BackupObject where
  key : String
  lastModified : Int
deriving DecidableEq, Repr

/-- The sort order of `removeOldBackups`' `sort.Slice` call: ascending
last-modified timestamp.  `sort.Slice` is an unspecified comparison sort;
it is modelled by a correct sort for this order, which matches `sort.Slice`
exactly whenever the timestamps are distinct. -/
def objLe (a b : BackupObject) : Prop := a.lastModified ≤ b.lastModified

instance : DecidableRel objLe := fun a b =>
  inferInstanceAs (Decidable (a.lastModified ≤ b.lastModified))

instance : IsTotal BackupObject objLe :=
  ⟨fun a b => Int.le_total a.lastModified b.lastModified⟩

instance : IsTrans BackupObject objLe := ⟨fun _ _ _ h1 h2 => le_trans h1 h2⟩

/-- The collaborator answers one `removeOldBackups` run observes. -/
structure PruneEnv where
  backupsToKeep : Int
  s3Path : String
  listRes : Except String (List BackupObject)
  deleteErr : Option String

/-- main.go `removeOldBackups`: retention disabled below 1; otherwise list
the objects, and when more than `BackupsToKeep` exist, sort ascending by
last-modified and delete the oldest excess in one batch.  The first
component is the list handed to `DeleteObjects`. -/
def removeOldBackups (env : PruneEnv) : List BackupObject × Except String Unit :=
  if env.backupsToKeep < 1 then ([], Except.ok ())
  else
    match env.listRes with
    | Except.error e => ([], Except.error e)
    | Except.ok objects =>
      let backupsToDelete : Int := (objects.length : Int) - env.backupsToKeep
      if backupsToDelete > 0 then
        let sorted := objects.insertionSort objLe
        let toDelete := sorted.take backupsToDelete.toNat
        match env.deleteErr with
        | some e => (toDelete, Except.error e)
        | none => (toDelete, Except.ok ())
      else ([], Except.ok ())

/-- Claim C8: with a keep count below 1 pruning is a successful no-op; with
at most `N` listed objects nothing is deleted; and with more than `N`
objects carrying pairwise-distinct timestamps, exactly
`len(listing) - N` objects are deleted, they are drawn from the listing,
and every deleted object is strictly older than every kept one. -/
theorem removeOldBackups_keeps_newest (env : PruneEnv) :
    (env.backupsToKeep < 1 → removeOldBackups env = ([], Except.ok ())) ∧
    (∀ objs, env.listRes = Except.ok objs →
      (objs.length : Int) ≤ env.backupsToKeep → (removeOldBackups env).1 = []) ∧
    (∀ objs, env.listRes = Except.ok objs → 1 ≤ env.backupsToKeep →
      env.backupsToKeep < (objs.length : Int) →
      objs.Pairwise (fun a b => a.lastModified ≠ b.lastModified) →
      ((removeOldBackups env).1.length : Int) = (objs.length : Int) - env.backupsToKeep ∧
      (removeOldBackups env).1.Subperm objs ∧
      ∀ d ∈ (removeOldBackups env).1, ∀ o ∈ objs, o ∉ (removeOldBackups env).1 →
        d.lastModified < o.lastModified) := by
  refine ⟨fun h => by simp [removeOldBackups, h], ?_, ?_⟩
  · intro objs hlist hle
    by_cases hk : env.backupsToKeep < 1
    · simp [removeOldBackups, hk]
    · have hnd : ¬ ((objs.length : Int) - env.backupsToKeep > 0) := by omega
      simp [removeOldBackups, hk, hlist, hnd]
  · intro objs hlist h1 h2 hdist
    have hk : ¬ env.backupsToKeep < 1 := by omega
    have hgt : (objs.length : Int) - env.backupsToKeep > 0 := by omega
    have hres : (removeOldBackups env).1 =
        (objs.insertionSort objLe).take ((objs.length : Int) - env.backupsToKeep).toNat := by
      cases hde : env.deleteErr <;> simp [removeOldBackups, hk, hlist, hgt, hde]
    have hperm : (objs.insertionSort objLe).Perm objs := List.perm_insertionSort objLe objs
    have hlen : (objs.insertionSort objLe).length = objs.length := hperm.length_eq
    have hsorted : List.Pairwise objLe (objs.insertionSort objLe) :=
      List.sorted_insertionSort objLe objs
    have hn : ((objs.length : Int) - env.backupsToKeep).toNat ≤
        (objs.insertionSort objLe).length := by
      rw [hlen]; omega
    refine ⟨?_, ?_, ?_⟩
    · rw [hres, List.length_take, min_eq_left hn]
      omega
    · rw [hres]
      exact ((List.take_sublist _ _).subperm).trans hperm.subperm
    · intro d hd o ho hno
      rw [hres] at hd hno
      have hosort : o ∈ objs.insertionSort objLe := hperm.mem_iff.mpr ho
      have hsplit := List.take_append_drop
        (((objs.length : Int) - env.backupsToKeep).toNat) (objs.insertionSort objLe)
      have hodrop : o ∈ (objs.insertionSort objLe).drop
          (((objs.length : Int) - env.backupsToKeep).toNat) := by
        have h3 := hosort
        rw [← hsplit] at h3
        rcases List.mem_append.mp h3 with h4 | h4
        · exact absurd h4 hno
        · exact h4
      have hpairle : List.Pairwise objLe
          ((objs.insertionSort objLe).take (((objs.length : Int) - env.backupsToKeep).toNat) ++
            (objs.insertionSort objLe).drop
              (((objs.length : Int) - env.backupsToKeep).toNat)) := by
        rw [hsplit]; exact hsorted
      have hle : objLe d o := (List.pairwise_append.mp hpairle).2.2 d hd o hodrop
      have hdistsort : List.Pairwise (fun a b => a.lastModified ≠ b.lastModified)
          (objs.insertionSort objLe) :=
        (List.Perm.pairwise_iff (fun h => h.symm) hperm).mpr hdist
      have hpairne : List.Pairwise (fun a b => a.lastModified ≠ b.lastModified)
          ((objs.insertionSort objLe).take (((objs.length : Int) - env.backupsToKeep).toNat) ++
            (objs.insertionSort objLe).drop
              (((objs.length : Int) - env.backupsToKeep).toNat)) := by
        rw [hsplit]; exact hdistsort
      have hne : d.lastModified ≠ o.lastModified :=
        (List.pairwise_append.mp hpairne).2.2 d hd o hodrop
      exact lt_of_le_of_ne hle hne

def demoObj1 : BackupObject := ⟨"backup1.tar", 1⟩

def demoObj2 : BackupObject := ⟨"backup2.tar", 2⟩

def demoObj3 : BackupObject := ⟨"backup3.tar", 3⟩

def demoObj4 : BackupObject := ⟨"backup4.tar", 4⟩

def demoListing : List BackupObject := [demoObj3, demoObj1, demoObj4, demoObj2]

def demoPruneEnv : PruneEnv :=
  { backupsToKeep := 2
    s3Path := "clickhouse-backups"
    listRes := Except.ok demoListing
    deleteErr := none }

example : (removeOldBackups demoPruneEnv).1 = [demoObj1, demoObj2] := by decide

theorem removeOldBackups_keeps_newest_witness :
    demoPruneEnv.listRes = Except.ok demoListing ∧
    (1 : Int) ≤ demoPruneEnv.backupsToKeep ∧
    demoPruneEnv.backupsToKeep < (demoListing.length : Int) ∧
    demoListing.Pairwise (fun a b => a.lastModified ≠ b.lastModified) ∧
    (((removeOldBackups demoPruneEnv).1.length : Int) =
        (demoListing.length : Int) - demoPruneEnv.backupsToKeep ∧
      (removeOldBackups demoPruneEnv).1.Subperm demoListing ∧
      ∀ d ∈ (removeOldBackups demoPruneEnv).1, ∀ o ∈ demoListing,
        o ∉ (removeOldBackups demoPruneEnv).1 →
          d.lastModified < o.lastModified) :=
  ⟨rfl, by decide, by decide, by decide,
    (removeOldBackups_keeps_newest demoPruneEnv).2.2 demoListing rfl (by decide) (by decide)
      (by decide)⟩

/-! ### The download operation (main.go `download`) -/

/-- An S3 transfer performed by `download`. -/
inductive S3Op where
  | downloadTree (remote localDir : String)
  | downloadArchive (name dst : String)
deriving DecidableEq, Repr

/-- The collaborator answers one `download` run observes. -/
structure DownloadEnv where
  configDataPath : String
  chConnectErr : Option String
  chDataPath : String
  chDataPathErr : Option String
  s3ConnectErr : Option String
  strategy : String
  treeMetaErr : Option String
  treeShadowErr : Option String
  dlArchiveErr : Option String
  openErr : Option String
  untarErr : Option String

/-- The shared data-path resolution at the top of `upload`, `download` and
`clean`: take `config.ClickHouse.DataPath` when set, otherwise connect and
ask `GetDataPath`, failing on a connect error, a `GetDataPath` error or an
empty answer. -/
def resolveDataPath (configDataPath : String) (chConnectErr : Option String)
    (chDataPath : String) (chDataPathErr : Option String) : Except String String :=
  if configDataPath ≠ "" then Except.ok configDataPath
  else
    match chConnectErr with
    | some e => Except.error ("cannot connect to clickhouse for get data path with: " ++ e)
    | none =>
      if chDataPathErr.isSome || chDataPath == "" then
        Except.error "cannot get data path from clickhouse"
      else Except.ok chDataPath

/-- main.go `downloadTree`: pull the metadata tree, then the shadow tree. -/
def downloadTreeGo (env : DownloadEnv) (dataPath : String) :
    List S3Op × Except String Unit :=
  let op1 := S3Op.downloadTree "metadata" (dataPath ++ "/backup/metadata")
  match env.treeMetaErr with
  | some e => ([op1], Except.error ("cannot download metadata from s3 with " ++ e))
  | none =>
    let op2 := S3Op.downloadTree "shadow" (dataPath ++ "/backup/shadow")
    match env.treeShadowErr with
    | some e => ([op1, op2], Except.error ("cannot download shadow from s3 with " ++ e))
    | none => ([op1, op2], Except.ok ())

/-- main.go `downloadArchive`: pull the metadata tree, download the named
archive object into `backup/`, open it and untar it there. -/
def downloadArchiveGo (env : DownloadEnv) (dataPath filename : String) :
    List S3Op × Except String Unit :=
  let op1 := S3Op.downloadTree "metadata" (dataPath ++ "/backup/metadata")
  match env.treeMetaErr with
  | some e => ([op1], Except.error ("cannot download metadata from s3 with " ++ e))
  | none =>
    let op2 := S3Op.downloadArchive filename (dataPath ++ "/backup")
    match env.dlArchiveErr with
    | some e => ([op1, op2], Except.error ("error downloading shadow from s3 with " ++ e))
    | none =>
      match env.openErr with
      | some e => ([op1, op2], Except.error ("error opening archive: " ++ e))
      | none =>
        match env.untarErr with
        | some e => ([op1, op2], Except.error ("error unarchiving: " ++ e))
        | none => ([op1, op2], Except.ok ())

/-- main.go `download`: resolve the data path, connect to S3, then dispatch
on the backup strategy; the archive strategy requires a non-empty archive
name from `parseArgsForDownload` before any transfer happens.  The first
component is the trace of S3 transfers. -/
def downloadGo (env : DownloadEnv) (args : List String) :
    List S3Op × Except String Unit :=
  match resolveDataPath env.configDataPath env.chConnectErr env.chDataPath
      env.chDataPathErr with
  | Except.error e => ([], Except.error e)
  | Except.ok dataPath =>
    match env.s3ConnectErr with
    | some e => ([], Except.error ("cannot connect to s3 with: " ++ e))
    | none =>
      match env.strategy with
      | "tree" => downloadTreeGo env dataPath
      | "archive" =>
        let filename := parseArgsForDownload args
        if filename == "" then
          ([], Except.error "an argument needs to be passed to download with archive strategy")
        else downloadArchiveGo env dataPath filename
      | _ => ([], Except.error "unsupported backup strategy")

/-- Claim C10: under the archive strategy, with a successfully resolved data
path and S3 connection, any argument count other than exactly one makes
`parseArgsForDownload` yield the empty filename and makes `download` return
the missing-archive-name error with no transfer attempted. -/
theorem download_archive_requires_single_arg (env : DownloadEnv) (args : List String)
    (hstrat : env.strategy = "archive")
    (hresolve : ∃ dp, resolveDataPath env.configDataPath env.chConnectErr env.chDataPath
        env.chDataPathErr = Except.ok dp)
    (hs3 : env.s3ConnectErr = none)
    (hargs : args.length ≠ 1) :
    parseArgsForDownload args = "" ∧
    downloadGo env args =
      ([], Except.error "an argument needs to be passed to download with archive strategy") := by
  obtain ⟨dp, hdp⟩ := hresolve
  have hparse : parseArgsForDownload args = "" := by
    cases args with
    | nil => rfl
    | cons a as =>
      cases as with
      | nil => exact absurd rfl hargs
      | cons b bs => rfl
  refine ⟨hparse, ?_⟩
  simp [downloadGo, hdp, hs3, hstrat, hparse]

def demoDownloadEnv : DownloadEnv :=
  { configDataPath := "/var/lib/clickhouse"
    chConnectErr := none
    chDataPath := ""
    chDataPathErr := none
    s3ConnectErr := none
    strategy := "archive"
    treeMetaErr := none
    treeShadowErr := none
    dlArchiveErr := none
    openErr := none
    untarErr := none }

theorem download_archive_requires_single_arg_witness :
    demoDownloadEnv.strategy = "archive" ∧
    (∃ dp, resolveDataPath demoDownloadEnv.configDataPath demoDownloadEnv.chConnectErr
        demoDownloadEnv.chDataPath demoDownloadEnv.chDataPathErr = Except.ok dp) ∧
    demoDownloadEnv.s3ConnectErr = none ∧
    (["a.tar", "b.tar"] : List String).length ≠ 1 ∧
    (parseArgsForDownload ["a.tar", "b.tar"] = "" ∧
      downloadGo demoDownloadEnv ["a.tar", "b.tar"] =
        ([], Except.error "an argument needs to be passed to download with archive strategy")) :=
  ⟨rfl, ⟨"/var/lib/clickhouse", rfl⟩, rfl, by decide,
    download_archive_requires_single_arg demoDownloadEnv ["a.tar", "b.tar"] rfl
      ⟨"/var/lib/clickhouse", rfl⟩ rfl (by decide)⟩

end ClickhouseBackup
